import Mathlib

/-!
Shallow embedding of the hackathon voting game core (`app.js`) and proofs
about its aggregation, leaderboard, eligibility and state-transition logic.

Numbers are modelled over `ℚ`: every numeric quantity the program computes
(weights, ratings, sums, averages) is produced from the decimal literals of
the source and integer ratings, so rational arithmetic reproduces the
source expressions exactly as written.

JavaScript objects keyed by round index / voter id are modelled as
association lists; object-field access is `assocGet`, field assignment is
`assocSet` (replacing the binding for an existing key, appending otherwise).
-/

/-- The five scoring-criterion keys of the `CRITERIA` table in `app.js`. -/
inductive Key where
  | problemFit
  | aiLeverage
  | creativity
  | execution
  | pitch
deriving DecidableEq, Repr

/-- One entry of the criteria table: key, display name and weight. -/
structure Criterion where
  key : Key
  name : String
  weight : ℚ
deriving DecidableEq, Repr

/-- The `CRITERIA` constant of `app.js` (weights 0.30, 0.25, 0.20, 0.15, 0.10). -/
def CRITERIA : List Criterion :=
  [ ⟨Key.problemFit, "Problem Fit", 30/100⟩,
    ⟨Key.aiLeverage, "AI-Leverage", 25/100⟩,
    ⟨Key.creativity, "Creativita", 20/100⟩,
    ⟨Key.execution, "Execution", 15/100⟩,
    ⟨Key.pitch, "Pitch", 10/100⟩ ]

/-- A rating map (`votes[r][voterId]` in the store): per-criterion-key
optional numeric rating.  `none` models an absent object field. -/
def RatingMap : Type := Key → Option ℚ

/-- Object-field read on an association list (JS `obj[key]`). -/
def assocGet {κ β : Type} [DecidableEq κ] (k : κ) : List (κ × β) → Option β
  | [] => none
  | (k2, v) :: rest => if k2 = k then some v else assocGet k rest

/-- Object-field write on an association list (JS `obj[key] = v`). -/
def assocSet {κ β : Type} [DecidableEq κ] (k : κ) (v : β) : List (κ × β) → List (κ × β)
  | [] => [(k, v)]
  | (k2, v2) :: rest => if k2 = k then (k, v) :: rest else (k2, v2) :: assocSet k v rest

theorem assocGet_assocSet_self {κ β : Type} [DecidableEq κ] (k : κ) (v : β)
    (l : List (κ × β)) : assocGet k (assocSet k v l) = some v := by
  induction l with
  | nil => simp [assocGet, assocSet]
  | cons p rest ih =>
    obtain ⟨k2, v2⟩ := p
    by_cases h : k2 = k
    · simp [assocGet, assocSet, h]
    · simp [assocGet, assocSet, h, ih]

theorem assocGet_assocSet_ne {κ β : Type} [DecidableEq κ] (k k2 : κ) (v : β)
    (l : List (κ × β)) (hne : k2 ≠ k) :
    assocGet k2 (assocSet k v l) = assocGet k2 l := by
  have hne2 : k ≠ k2 := Ne.symm hne
  induction l with
  | nil => simp [assocGet, assocSet, hne2]
  | cons p rest ih =>
    obtain ⟨k3, v3⟩ := p
    by_cases h : k3 = k
    · subst h
      simp [assocGet, assocSet, hne2]
    · by_cases h2 : k3 = k2 <;> simp [assocGet, assocSet, h, h2, hne, ih]

/-- The `computeWeightedAverage` function of `app.js`: fold over `CRITERIA`,
adding `rating * weight` per criterion, a missing rating contributing 0
(JS `parseFloat(ratings[c.key]) || 0`). -/
def computeWeightedAverage (ratings : RatingMap) : ℚ :=
  CRITERIA.foldl (fun sum c => sum + (ratings c.key).getD 0 * c.weight) 0

/-- The shared room record of the store (`rooms/<code>` in `app.js`). -/
structure Room where
  teams : List String
  currentRound : ℕ
  currentTeam : Option ℕ
  timerEnd : ℕ
  roundTeams : List (ℕ × ℕ)
  votes : List (ℕ × List (String × RatingMap))

/-- Per-criterion total of one round's votes, as accumulated by the
`Object.values(roundVotes).forEach` loop of `renderLiveResults`
(`parseFloat(v[c.key] || 0)` makes a missing rating contribute 0). -/
def perCriterionTotal (roundVotes : List (String × RatingMap)) (c : Criterion) : ℚ :=
  roundVotes.foldl (fun total v => total + (v.2 c.key).getD 0) 0

/-- Per-criterion average of `renderLiveResults`:
`averages[c.key] = voteCount ? total / voteCount : 0`. -/
def perCriterionAverage (roundVotes : List (String × RatingMap)) (c : Criterion) : ℚ :=
  if roundVotes.length ≠ 0 then perCriterionTotal roundVotes c / roundVotes.length else 0

/-- One vote's effect on the per-team accumulators of `renderLeaderboard`:
`scores[teamIndex] += computeWeightedAverage(vote); counts[teamIndex] += 1`. -/
def tallyVote (ti : ℕ) (acc : (ℕ → ℚ) × (ℕ → ℕ)) (vote : String × RatingMap) :
    (ℕ → ℚ) × (ℕ → ℕ) :=
  (fun j => if j = ti then acc.1 j + computeWeightedAverage vote.2 else acc.1 j,
   fun j => if j = ti then acc.2 j + 1 else acc.2 j)

/-- One round's effect on the accumulators of `renderLeaderboard`: rounds
whose `roundTeams[roundKey]` is absent are skipped
(`if (teamIndex === undefined || teamIndex === null) return`). -/
def tallyRound (roundTeams : List (ℕ × ℕ)) (acc : (ℕ → ℚ) × (ℕ → ℕ))
    (entry : ℕ × List (String × RatingMap)) : (ℕ → ℚ) × (ℕ → ℕ) :=
  match assocGet entry.1 roundTeams with
  | none => acc
  | some ti => entry.2.foldl (tallyVote ti) acc

/-- The `scores` / `counts` accumulation loop of `renderLeaderboard`. -/
def leaderboardTally (roundTeams : List (ℕ × ℕ))
    (votes : List (ℕ × List (String × RatingMap))) : (ℕ → ℚ) × (ℕ → ℕ) :=
  votes.foldl (tallyRound roundTeams) (fun _ => 0, fun _ => 0)

/-- Spec-side definition (4.2 Leaderboard Builder): total weighted score of a
team, summed over the (round, voter) pairs whose round was assigned to it. -/
def specTeamTotalScore (roundTeams : List (ℕ × ℕ))
    (votes : List (ℕ × List (String × RatingMap))) (ti : ℕ) : ℚ :=
  (votes.map (fun entry =>
    if assocGet entry.1 roundTeams = some ti then
      (entry.2.map (fun vote => computeWeightedAverage vote.2)).sum
    else 0)).sum

/-- Spec-side definition (4.2 Leaderboard Builder): number of (round, voter)
pairs counted for a team. -/
def specTeamVoteCount (roundTeams : List (ℕ × ℕ))
    (votes : List (ℕ × List (String × RatingMap))) (ti : ℕ) : ℕ :=
  (votes.map (fun entry =>
    if assocGet entry.1 roundTeams = some ti then entry.2.length else 0)).sum

theorem foldl_tallyVote_fst (ti j : ℕ) (rv : List (String × RatingMap))
    (acc : (ℕ → ℚ) × (ℕ → ℕ)) :
    (rv.foldl (tallyVote ti) acc).1 j =
      if j = ti then acc.1 j + (rv.map (fun v => computeWeightedAverage v.2)).sum
      else acc.1 j := by
  induction rv generalizing acc with
  | nil => simp
  | cons v rest ih =>
    simp only [List.foldl_cons, ih, List.map_cons, List.sum_cons]
    by_cases h : j = ti <;> simp [tallyVote, h, add_assoc]

theorem foldl_tallyVote_snd (ti j : ℕ) (rv : List (String × RatingMap))
    (acc : (ℕ → ℚ) × (ℕ → ℕ)) :
    (rv.foldl (tallyVote ti) acc).2 j =
      if j = ti then acc.2 j + rv.length else acc.2 j := by
  induction rv generalizing acc with
  | nil => simp
  | cons v rest ih =>
    simp only [List.foldl_cons, ih, List.length_cons]
    by_cases h : j = ti <;> simp [tallyVote, h] ; omega

theorem foldl_tallyRound_fst (rt : List (ℕ × ℕ)) (j : ℕ)
    (votes : List (ℕ × List (String × RatingMap))) (acc : (ℕ → ℚ) × (ℕ → ℕ)) :
    (votes.foldl (tallyRound rt) acc).1 j = acc.1 j + specTeamTotalScore rt votes j := by
  induction votes generalizing acc with
  | nil => simp [specTeamTotalScore]
  | cons entry rest ih =>
    simp only [List.foldl_cons, ih, specTeamTotalScore, List.map_cons, List.sum_cons]
    cases hget : assocGet entry.1 rt with
    | none => simp [tallyRound, hget]
    | some ti =>
      simp only [tallyRound, hget, foldl_tallyVote_fst]
      by_cases h : j = ti
      · subst h
        simp [hget, add_assoc, specTeamTotalScore]
      · have h2 : ti ≠ j := fun hh => h hh.symm
        simp [h, h2, hget, specTeamTotalScore]

theorem foldl_tallyRound_snd (rt : List (ℕ × ℕ)) (j : ℕ)
    (votes : List (ℕ × List (String × RatingMap))) (acc : (ℕ → ℚ) × (ℕ → ℕ)) :
    (votes.foldl (tallyRound rt) acc).2 j = acc.2 j + specTeamVoteCount rt votes j := by
  induction votes generalizing acc with
  | nil => simp [specTeamVoteCount]
  | cons entry rest ih =>
    simp only [List.foldl_cons, ih, specTeamVoteCount, List.map_cons, List.sum_cons]
    cases hget : assocGet entry.1 rt with
    | none => simp [tallyRound, hget]
    | some ti =>
      simp only [tallyRound, hget, foldl_tallyVote_snd]
      by_cases h : j = ti
      · subst h
        simp [hget, specTeamVoteCount]
        omega
      · have h2 : ti ≠ j := fun hh => h hh.symm
        simp [h, h2, hget, specTeamVoteCount]

theorem leaderboardTally_fst (rt : List (ℕ × ℕ))
    (votes : List (ℕ × List (String × RatingMap))) (j : ℕ) :
    (leaderboardTally rt votes).1 j = specTeamTotalScore rt votes j := by
  simp [leaderboardTally, foldl_tallyRound_fst]

theorem leaderboardTally_snd (rt : List (ℕ × ℕ))
    (votes : List (ℕ × List (String × RatingMap))) (j : ℕ) :
    (leaderboardTally rt votes).2 j = specTeamVoteCount rt votes j := by
  simp [leaderboardTally, foldl_tallyRound_snd]

/-- One row of the intermediate leaderboard array built by
`room.teams.map((name, idx) => ({ name, avg }))`. -/
structure LBEntry where
  name : String
  avg : ℚ
deriving DecidableEq, Repr

/-- The `room.teams.map((name, idx) => ...)` loop of `renderLeaderboard`,
with the running index made explicit:
`avg = counts[idx] ? scores[idx] / counts[idx] : 0`. -/
def leaderboardEntriesAux (sc : ℕ → ℚ) (ct : ℕ → ℕ) : ℕ → List String → List LBEntry
  | _, [] => []
  | idx, nm :: rest =>
    ⟨nm, if ct idx ≠ 0 then sc idx / ct idx else 0⟩ :: leaderboardEntriesAux sc ct (idx + 1) rest

/-- The unsorted leaderboard of `renderLeaderboard`. -/
def leaderboardEntries (room : Room) : List LBEntry :=
  leaderboardEntriesAux (leaderboardTally room.roundTeams room.votes).1
    (leaderboardTally room.roundTeams room.votes).2 0 room.teams

/-- The order used by `leaderboard.sort((a, b) => b.avg - a.avg)`: `a`
precedes `b` exactly when the comparator is nonpositive. -/
def lbGE (a b : LBEntry) : Prop := b.avg ≤ a.avg

instance lbGE.instDecidableRel : DecidableRel lbGE :=
  fun a b => (inferInstance : Decidable (b.avg ≤ a.avg))

instance lbGE.instIsTotal : IsTotal LBEntry lbGE :=
  ⟨fun a b => le_total b.avg a.avg⟩

instance lbGE.instIsTrans : IsTrans LBEntry lbGE :=
  ⟨fun _ _ _ h1 h2 => le_trans h2 h1⟩

/-- The `leaderboard.sort((a, b) => b.avg - a.avg)` call: a stable sort
placing higher averages first. -/
def leaderboardSorted (l : List LBEntry) : List LBEntry :=
  List.insertionSort lbGE l

/-- The medal prefix chosen by position in the `leaderboard.forEach((entry,
index) => ...)` render loop of `renderLeaderboard`. -/
def medalFor (i : ℕ) : String :=
  if i = 0 then "🥇 " else if i = 1 then "🥈 " else if i = 2 then "🥉 " else ""

/-- The render loop of `renderLeaderboard`, with the running index made
explicit: each row shows medal prefix, team name and average. -/
def renderRows : ℕ → List LBEntry → List (String × String × ℚ)
  | _, [] => []
  | i, e :: rest => (medalFor i, e.name, e.avg) :: renderRows (i + 1) rest

/-- The full `renderLeaderboard` pipeline (tally, average, sort, render). -/
def renderLeaderboard (room : Room) : List (String × String × ℚ) :=
  renderRows 0 (leaderboardSorted (leaderboardEntries room))

theorem leaderboardEntriesAux_length (sc : ℕ → ℚ) (ct : ℕ → ℕ) (start : ℕ)
    (l : List String) : (leaderboardEntriesAux sc ct start l).length = l.length := by
  induction l generalizing start with
  | nil => rfl
  | cons nm rest ih => simp [leaderboardEntriesAux, ih]

theorem leaderboardEntriesAux_get (sc : ℕ → ℚ) (ct : ℕ → ℕ) (start : ℕ)
    (l : List String) (i : ℕ) (h : i < (leaderboardEntriesAux sc ct start l).length)
    (h2 : i < l.length) :
    (leaderboardEntriesAux sc ct start l).get ⟨i, h⟩ =
      ⟨l.get ⟨i, h2⟩,
       if ct (start + i) ≠ 0 then sc (start + i) / ct (start + i) else 0⟩ := by
  induction l generalizing start i with
  | nil => simp at h2
  | cons nm rest ih =>
    cases i with
    | zero => simp [leaderboardEntriesAux]
    | succ n =>
      have hlen : n < (leaderboardEntriesAux sc ct (start + 1) rest).length := by
        simp only [leaderboardEntriesAux_length]
        simpa using h2
      have hlen2 : n < rest.length := by simpa using h2
      simp only [leaderboardEntriesAux, List.get_cons_succ]
      rw [ih (start + 1) n hlen hlen2]
      have harith : start + 1 + n = start + (n + 1) := by omega
      simp [harith]

theorem renderRows_length (start : ℕ) (l : List LBEntry) :
    (renderRows start l).length = l.length := by
  induction l generalizing start with
  | nil => rfl
  | cons e rest ih => simp [renderRows, ih]

theorem renderRows_get (start : ℕ) (l : List LBEntry) (i : ℕ)
    (h : i < (renderRows start l).length) (h2 : i < l.length) :
    (renderRows start l).get ⟨i, h⟩ =
      (medalFor (start + i), (l.get ⟨i, h2⟩).name, (l.get ⟨i, h2⟩).avg) := by
  induction l generalizing start i with
  | nil => simp at h2
  | cons e rest ih =>
    cases i with
    | zero => simp [renderRows]
    | succ n =>
      have hlen : n < (renderRows (start + 1) rest).length := by
        simp only [renderRows_length]
        simpa using h2
      have hlen2 : n < rest.length := by simpa using h2
      simp only [renderRows, List.get_cons_succ]
      rw [ih (start + 1) n hlen hlen2]
      have harith : start + 1 + n = start + (n + 1) := by omega
      simp [harith]

/-- The example rating map of spec 8 (Aggregator correctness): ratings
(5, 1, 3, 2, 4) on the five criteria in table order. -/
def specExampleRatings : RatingMap :=
  fun k => match k with
  | Key.problemFit => some 5
  | Key.aiLeverage => some 1
  | Key.creativity => some 3
  | Key.execution => some 2
  | Key.pitch => some 4

theorem foldl_add_eq_sum {α : Type} (f : α → ℚ) (l : List α) (acc : ℚ) :
    l.foldl (fun t v => t + f v) acc = acc + (l.map f).sum := by
  induction l generalizing acc with
  | nil => simp
  | cons x rest ih => simp [ih, add_assoc]

/-- C2 counterexample: for ratings (5,1,3,2,4) under weights
(.30,.25,.20,.15,.10), `computeWeightedAverage` returns 3.05 = 61/20, not
the claimed 3.15 = 63/20. -/
theorem claimC2_counterexample :
    computeWeightedAverage specExampleRatings = 61/20 ∧
      computeWeightedAverage specExampleRatings ≠ 63/20 := by
  constructor
  · norm_num [computeWeightedAverage, CRITERIA, specExampleRatings]
  · norm_num [computeWeightedAverage, CRITERIA, specExampleRatings]

/-- C2 (amended): the weighted score is the sum over the five criteria of
weight times the rating stored under the criterion's key, a missing
criterion contributing 0; for ratings (5,1,3,2,4) on the five criteria
with weights (.30,.25,.20,.15,.10) the weighted score is 3.05. -/
theorem claimC2_weightedScore :
    (∀ ratings : RatingMap,
      computeWeightedAverage ratings =
        (CRITERIA.map (fun c => c.weight * (ratings c.key).getD 0)).sum)
    ∧ computeWeightedAverage specExampleRatings = 61/20 := by
  constructor
  · intro ratings
    simp only [computeWeightedAverage, CRITERIA, List.foldl_cons, List.foldl_nil,
      List.map_cons, List.map_nil, List.sum_cons, List.sum_nil]
    ring
  · norm_num [computeWeightedAverage, CRITERIA, specExampleRatings]

theorem perCriterionTotal_eq_sum (rv : List (String × RatingMap)) (c : Criterion) :
    perCriterionTotal rv c = (rv.map (fun v => (v.2 c.key).getD 0)).sum := by
  simpa using foldl_add_eq_sum (fun v : String × RatingMap => (v.2 c.key).getD 0) rv 0

/-- C6: the per-criterion average over an empty vote collection is 0 (the
division is guarded by the vote count), and over a non-empty collection it
is the criterion's rating sum divided by the number of rating maps. -/
theorem claimC6_perCriterionAverage (c : Criterion) (rv : List (String × RatingMap))
    (h : rv ≠ []) :
    perCriterionAverage [] c = 0 ∧
    perCriterionAverage rv c =
      (rv.map (fun v => (v.2 c.key).getD 0)).sum / rv.length := by
  constructor
  · simp [perCriterionAverage]
  · have hlen : rv.length ≠ 0 := by
      simpa using fun h2 => h (List.length_eq_zero.mp h2)
    simp [perCriterionAverage, hlen, perCriterionTotal_eq_sum]

/-- C6 witness: evaluation at a concrete one-vote collection. -/
theorem claimC6_witness :
    perCriterionAverage [] ⟨Key.problemFit, "Problem Fit", 30/100⟩ = 0 ∧
    perCriterionAverage [("v1", specExampleRatings)]
        ⟨Key.problemFit, "Problem Fit", 30/100⟩ =
      ([("v1", specExampleRatings)].map
        (fun v => (v.2 Key.problemFit).getD 0)).sum /
        ([("v1", specExampleRatings)] : List (String × RatingMap)).length :=
  claimC6_perCriterionAverage ⟨Key.problemFit, "Problem Fit", 30/100⟩
    [("v1", specExampleRatings)] (by simp)

/-- C9: the five criterion weights sum to exactly 1 as rationals, and on a
rating map holding an integer rating in [1,5] for every criterion key,
`computeWeightedAverage` is a convex combination lying in [1,5]. -/
theorem claimC9_weightedAverageBounds (ratings : RatingMap)
    (h : ∀ k : Key, ∃ n : ℕ, ratings k = some (n : ℚ) ∧ 1 ≤ n ∧ n ≤ 5) :
    (CRITERIA.map Criterion.weight).sum = 1 ∧
    1 ≤ computeWeightedAverage ratings ∧ computeWeightedAverage ratings ≤ 5 := by
  obtain ⟨n1, e1, l1, u1⟩ := h Key.problemFit
  obtain ⟨n2, e2, l2, u2⟩ := h Key.aiLeverage
  obtain ⟨n3, e3, l3, u3⟩ := h Key.creativity
  obtain ⟨n4, e4, l4, u4⟩ := h Key.execution
  obtain ⟨n5, e5, l5, u5⟩ := h Key.pitch
  have q1l : (1 : ℚ) ≤ n1 := by exact_mod_cast l1
  have q2l : (1 : ℚ) ≤ n2 := by exact_mod_cast l2
  have q3l : (1 : ℚ) ≤ n3 := by exact_mod_cast l3
  have q4l : (1 : ℚ) ≤ n4 := by exact_mod_cast l4
  have q5l : (1 : ℚ) ≤ n5 := by exact_mod_cast l5
  have q1u : (n1 : ℚ) ≤ 5 := by exact_mod_cast u1
  have q2u : (n2 : ℚ) ≤ 5 := by exact_mod_cast u2
  have q3u : (n3 : ℚ) ≤ 5 := by exact_mod_cast u3
  have q4u : (n4 : ℚ) ≤ 5 := by exact_mod_cast u4
  have q5u : (n5 : ℚ) ≤ 5 := by exact_mod_cast u5
  refine ⟨by norm_num [CRITERIA], ?_, ?_⟩
  · simp only [computeWeightedAverage, CRITERIA, List.foldl_cons, List.foldl_nil,
      e1, e2, e3, e4, e5, Option.getD_some]
    linarith
  · simp only [computeWeightedAverage, CRITERIA, List.foldl_cons, List.foldl_nil,
      e1, e2, e3, e4, e5, Option.getD_some]
    linarith

/-- C9 witness: evaluation at the concrete example rating map. -/
theorem claimC9_witness :
    (CRITERIA.map Criterion.weight).sum = 1 ∧
    1 ≤ computeWeightedAverage specExampleRatings ∧
      computeWeightedAverage specExampleRatings ≤ 5 :=
  claimC9_weightedAverageBounds specExampleRatings
    (fun k => by
      cases k with
      | problemFit => exact ⟨5, rfl, by norm_num⟩
      | aiLeverage => exact ⟨1, rfl, by norm_num⟩
      | creativity => exact ⟨3, rfl, by norm_num⟩
      | execution => exact ⟨2, rfl, by norm_num⟩
      | pitch => exact ⟨4, rfl, by norm_num⟩)

theorem specTeamTotalScore_filter (rt : List (ℕ × ℕ))
    (votes : List (ℕ × List (String × RatingMap))) (j : ℕ) :
    specTeamTotalScore rt (votes.filter (fun e => (assocGet e.1 rt).isSome)) j =
      specTeamTotalScore rt votes j := by
  induction votes with
  | nil => rfl
  | cons e rest ih =>
    simp only [specTeamTotalScore] at ih
    cases hget : assocGet e.1 rt with
    | none => simp [specTeamTotalScore, List.filter_cons, hget, ih]
    | some ti => simp [specTeamTotalScore, List.filter_cons, hget, ih]

theorem specTeamVoteCount_filter (rt : List (ℕ × ℕ))
    (votes : List (ℕ × List (String × RatingMap))) (j : ℕ) :
    specTeamVoteCount rt (votes.filter (fun e => (assocGet e.1 rt).isSome)) j =
      specTeamVoteCount rt votes j := by
  induction votes with
  | nil => rfl
  | cons e rest ih =>
    simp only [specTeamVoteCount] at ih
    cases hget : assocGet e.1 rt with
    | none => simp [specTeamVoteCount, List.filter_cons, hget, ih]
    | some ti => simp [specTeamVoteCount, List.filter_cons, hget, ih]

/-- C10: the leaderboard fold skips every vote lying in a round with no
assigned team (dropping those rounds does not change the tally at all), and
a vote in an assigned round is counted exactly toward the team recorded in
`roundTeams` for that round (the tally equals the spec sums, which charge
each (round, voter) pair to the unique `roundTeams` team of its round). -/
theorem claimC10_leaderboardFoldSkips (rt : List (ℕ × ℕ))
    (votes : List (ℕ × List (String × RatingMap))) (team : ℕ) :
    (leaderboardTally rt votes).1 team = specTeamTotalScore rt votes team ∧
    (leaderboardTally rt votes).2 team = specTeamVoteCount rt votes team ∧
    leaderboardTally rt (votes.filter (fun e => (assocGet e.1 rt).isSome)) =
      leaderboardTally rt votes := by
  refine ⟨leaderboardTally_fst rt votes team, leaderboardTally_snd rt votes team, ?_⟩
  have hfst : (leaderboardTally rt
      (votes.filter (fun e => (assocGet e.1 rt).isSome))).1 =
      (leaderboardTally rt votes).1 := by
    funext j
    rw [leaderboardTally_fst, leaderboardTally_fst, specTeamTotalScore_filter]
  have hsnd : (leaderboardTally rt
      (votes.filter (fun e => (assocGet e.1 rt).isSome))).2 =
      (leaderboardTally rt votes).2 := by
    funext j
    rw [leaderboardTally_snd, leaderboardTally_snd, specTeamVoteCount_filter]
  exact Prod.ext hfst hsnd

theorem medalFor_ne_empty_iff (n : ℕ) : medalFor n ≠ "" ↔ n < 3 := by
  rcases n with _ | _ | _ | m
  · decide
  · decide
  · decide
  · have h0 : m + 1 + 1 + 1 ≠ 0 := by omega
    have h1 : m + 1 + 1 + 1 ≠ 1 := by omega
    have h2 : m + 1 + 1 + 1 ≠ 2 := by omega
    simp [medalFor, h0, h1, h2]

/-- C1: each unsorted leaderboard entry carries the average
totalScore / voteCount over the (round, voter) pairs whose round was
assigned to that team (0 when the count is 0); the rendered list is a
permutation of the entries sorted descending by average; and the medal tag
of row j is `medalFor j`, a function of sorted position alone, empty
exactly from position 3 on. -/
theorem claimC1_leaderboard (room : Room) (i : ℕ)
    (hi : i < (leaderboardEntries room).length) (ht : i < room.teams.length)
    (j : ℕ) (hj : j < (renderLeaderboard room).length) :
    ((leaderboardEntries room).get ⟨i, hi⟩ =
      ⟨room.teams.get ⟨i, ht⟩,
       if specTeamVoteCount room.roundTeams room.votes i ≠ 0 then
         specTeamTotalScore room.roundTeams room.votes i /
           specTeamVoteCount room.roundTeams room.votes i
       else 0⟩)
    ∧ List.Perm (leaderboardSorted (leaderboardEntries room)) (leaderboardEntries room)
    ∧ List.Sorted lbGE (leaderboardSorted (leaderboardEntries room))
    ∧ ((renderLeaderboard room).get ⟨j, hj⟩).1 = medalFor j
    ∧ (∀ n : ℕ, medalFor n ≠ "" ↔ n < 3) := by
  refine ⟨?_, List.perm_insertionSort lbGE _, List.sorted_insertionSort lbGE _, ?_, medalFor_ne_empty_iff⟩
  · have key := leaderboardEntriesAux_get (leaderboardTally room.roundTeams room.votes).1
      (leaderboardTally room.roundTeams room.votes).2 0 room.teams i hi ht
    exact key.trans (by simp [leaderboardTally_fst, leaderboardTally_snd])
  · have hj2 : j < (leaderboardSorted (leaderboardEntries room)).length := by
      have h2 := hj
      simp only [renderLeaderboard, renderRows_length] at h2
      exact h2
    have key := renderRows_get 0 (leaderboardSorted (leaderboardEntries room)) j hj hj2
    have key2 := congrArg Prod.fst key
    exact key2.trans (by norm_num)

/-- Concrete two-team room used to instantiate the leaderboard theorems. -/
def c1SampleRoom : Room :=
  { teams := ["Alpha", "Beta"],
    currentRound := 1,
    currentTeam := none,
    timerEnd := 0,
    roundTeams := [(0, 0)],
    votes := [(0, [("v1", specExampleRatings)])] }

/-- C1 witness: the theorem applied to the concrete sample room at row 0. -/
theorem claimC1_witness :
    (leaderboardEntries c1SampleRoom).get
        ⟨0, by simp only [leaderboardEntries, leaderboardEntriesAux_length]; simp [c1SampleRoom]⟩ =
      ⟨(c1SampleRoom.teams).get ⟨0, by simp [c1SampleRoom]⟩,
       if specTeamVoteCount c1SampleRoom.roundTeams c1SampleRoom.votes 0 ≠ 0 then
         specTeamTotalScore c1SampleRoom.roundTeams c1SampleRoom.votes 0 /
           specTeamVoteCount c1SampleRoom.roundTeams c1SampleRoom.votes 0
       else 0⟩ :=
  (claimC1_leaderboard c1SampleRoom 0
    (by simp only [leaderboardEntries, leaderboardEntriesAux_length]; simp [c1SampleRoom])
    (by simp [c1SampleRoom]) 0
    (by
      simp only [renderLeaderboard, renderRows_length, leaderboardSorted,
        List.length_insertionSort, leaderboardEntries, leaderboardEntriesAux_length]
      simp [c1SampleRoom])).1

/-- The `playerHasVoted` function of `app.js`: whether
`votes[currentRound][voterId]` holds a stored rating map. -/
def playerHasVoted (votes : List (ℕ × List (String × RatingMap)))
    (currentRound : ℕ) (voterId : String) : Bool :=
  match assocGet currentRound votes with
  | none => false
  | some roundVotes => (assocGet voterId roundVotes).isSome

/-- Stored vote at `votes[r][v]`. -/
def lookupVote (votes : List (ℕ × List (String × RatingMap))) (r : ℕ) (v : String) :
    Option RatingMap :=
  (assocGet r votes).bind (assocGet v)

/-- The vote-enablement computation of `subscribePlayer`:
`timerRunning && !isOwnTeam && !alreadyVoted`, with
`timerRunning = state.timerEnd && state.timerEnd > Date.now()` and
`isOwnTeam = state.currentTeamIndex === state.myTeamIndex`. -/
def canVote (room : Room) (myTeamIndex : ℕ) (voterId : String) (now : ℕ) : Bool :=
  (decide (room.timerEnd ≠ 0) && decide (now < room.timerEnd))
    && !(decide (room.currentTeam = some myTeamIndex))
    && !(playerHasVoted room.votes room.currentRound voterId)

theorem playerHasVoted_eq_isSome (votes : List (ℕ × List (String × RatingMap)))
    (r : ℕ) (v : String) :
    playerHasVoted votes r v = (lookupVote votes r v).isSome := by
  cases h : assocGet r votes <;> simp [playerHasVoted, lookupVote, h]

/-- C3: the submit gate is enabled exactly when the timer is set and
strictly in the future, the voter's team is not the team under evaluation,
and no vote is stored for this voter in the current round; a voter on the
current team is always gated off, and a stored vote always gates the same
(round, voter) off, the gate being a pure function of the room snapshot. -/
theorem claimC3_eligibilityGate (room : Room) (myTeamIndex : ℕ) (voterId : String)
    (now : ℕ) :
    (canVote room myTeamIndex voterId now = true ↔
      (room.timerEnd ≠ 0 ∧ now < room.timerEnd) ∧
        room.currentTeam ≠ some myTeamIndex ∧
        lookupVote room.votes room.currentRound voterId = none)
    ∧ (room.currentTeam = some myTeamIndex →
        canVote room myTeamIndex voterId now = false)
    ∧ (lookupVote room.votes room.currentRound voterId ≠ none →
        canVote room myTeamIndex voterId now = false) := by
  have hiff : canVote room myTeamIndex voterId now = true ↔
      (room.timerEnd ≠ 0 ∧ now < room.timerEnd) ∧
        room.currentTeam ≠ some myTeamIndex ∧
        lookupVote room.votes room.currentRound voterId = none := by
    simp [canVote, playerHasVoted_eq_isSome, Option.isSome_iff_ne_none, and_assoc]
  refine ⟨hiff, ?_, ?_⟩
  · intro hown
    cases hcv : canVote room myTeamIndex voterId now
    · rfl
    · exact absurd hown (hiff.mp hcv).2.1
  · intro hvoted
    cases hcv : canVote room myTeamIndex voterId now
    · rfl
    · exact absurd (hiff.mp hcv).2.2 hvoted

/-- Concrete room with a running timer whose current team is team 0. -/
def c3SampleRoom : Room :=
  { teams := ["Alpha", "Beta"],
    currentRound := 0,
    currentTeam := some 0,
    timerEnd := 100,
    roundTeams := [(0, 0)],
    votes := [] }

/-- C3 witness: with the timer running, a voter on the current team is
gated off. -/
theorem claimC3_witness : canVote c3SampleRoom 0 "v9" 50 = false :=
  (claimC3_eligibilityGate c3SampleRoom 0 "v9" 50).2.1 rfl

/-- A write issued to the store by a host control: either an atomic
read-modify-write (`db.ref(..).transaction(fn)`, retried by the store
against fresher data on conflict) or a plain unconditioned field write
(`db.ref(..).update(..)` / `.set(..)`). -/
inductive StoreWrite where
  | transaction (fn : Option Room → Option Room)
  | plainWrite (f : Room → Room)

/-- Whether a store write is a transaction. -/
def isTransaction : StoreWrite → Bool
  | .transaction _ => true
  | .plainWrite _ => false

/-- The transaction function of the team-selector click handler in
`buildHostTeamSelector`: sets `currentTeam` and records
`roundTeams[state.currentRound] = index`; a vanished room is left alone. -/
def selectTeamTx (clientRound idx : ℕ) : Option Room → Option Room
  | none => none
  | some room =>
      some { room with
        currentTeam := some idx,
        roundTeams := assocSet clientRound idx room.roundTeams }

/-- The transaction function of the `nextRoundBtn` handler. -/
def advanceRoundTx : Option Room → Option Room
  | none => none
  | some room =>
      some { room with
        currentRound := room.currentRound + 1, currentTeam := none, timerEnd := 0 }

/-- The transaction function of the `prevRoundBtn` handler
(`Math.max(0, currentRound - 1)` is truncated subtraction on ℕ). -/
def retreatRoundTx : Option Room → Option Room
  | none => none
  | some room =>
      some { room with
        currentRound := room.currentRound - 1, currentTeam := none, timerEnd := 0 }

/-- SelectTeam as issued by the host UI: a transaction. -/
def selectTeamWrite (clientRound idx : ℕ) : StoreWrite :=
  .transaction (selectTeamTx clientRound idx)

/-- StartTimer as issued by `timerStartBtn`: a plain
`update({ timerEnd: Date.now() + 3 * 60 * 1000 })`, not a transaction. -/
def startTimerWrite (now : ℕ) : StoreWrite :=
  .plainWrite (fun room => { room with timerEnd := now + 180000 })

/-- StopTimer as issued by `timerStopBtn`: a plain `update({ timerEnd: 0 })`,
not a transaction. -/
def stopTimerWrite : StoreWrite :=
  .plainWrite (fun room => { room with timerEnd := 0 })

/-- AdvanceRound as issued by `nextRoundBtn`: a transaction. -/
def advanceRoundWrite : StoreWrite := .transaction advanceRoundTx

/-- RetreatRound as issued by `prevRoundBtn`: a transaction. -/
def retreatRoundWrite : StoreWrite := .transaction retreatRoundTx

/-- C4 counterexample: StartTimer and StopTimer are issued as plain
`update` writes, not as atomic read-modify-write transactions, refuting
the claim for two of the five listed transitions. -/
theorem claimC4_counterexample :
    isTransaction (startTimerWrite 0) = false ∧ isTransaction stopTimerWrite = false :=
  ⟨rfl, rfl⟩

/-- C4 (amended): SelectTeam, AdvanceRound and RetreatRound are applied as
atomic read-modify-write transactions; StartTimer and StopTimer are plain
field overwrites; and serializing two concurrent SelectTeam transactions
for round r in either order leaves exactly the last writer's team stored
for r — always one of the two, never a merged value. -/
theorem claimC4_transactionality :
    (∀ cr idx, isTransaction (selectTeamWrite cr idx) = true)
    ∧ isTransaction advanceRoundWrite = true
    ∧ isTransaction retreatRoundWrite = true
    ∧ (∀ now, isTransaction (startTimerWrite now) = false)
    ∧ isTransaction stopTimerWrite = false
    ∧ (∀ (room : Room) (r t1 t2 : ℕ) (firstIsT1 : Bool),
        ∃ rm : Room,
          (if firstIsT1 then selectTeamTx r t2 (selectTeamTx r t1 (some room))
           else selectTeamTx r t1 (selectTeamTx r t2 (some room))) = some rm
          ∧ (assocGet r rm.roundTeams = some t1 ∨ assocGet r rm.roundTeams = some t2)) := by
  refine ⟨fun _ _ => rfl, rfl, rfl, fun _ => rfl, rfl, ?_⟩
  intro room r t1 t2 firstIsT1
  cases firstIsT1
  · have hrm : selectTeamTx r t1 (selectTeamTx r t2 (some room)) =
        some { room with currentTeam := some t1,
                         roundTeams := assocSet r t1 (assocSet r t2 room.roundTeams) } := by
      simp [selectTeamTx]
    exact ⟨_, hrm, Or.inl (assocGet_assocSet_self r t1 _)⟩
  · have hrm : selectTeamTx r t2 (selectTeamTx r t1 (some room)) =
        some { room with currentTeam := some t2,
                         roundTeams := assocSet r t2 (assocSet r t1 room.roundTeams) } := by
      simp [selectTeamTx]
    exact ⟨_, hrm, Or.inr (assocGet_assocSet_self r t2 _)⟩

/-- The `readRatings` function of `app.js` over the star form built by
`buildRatingForm`: per criterion key, the checked radio (if any) among the
five stars valued 1..5, read back as `parseInt(checked.value)`. -/
def readRatings (sel : Key → Option (Fin 5)) : RatingMap :=
  fun k => (sel k).map (fun i => ((i.val + 1 : ℕ) : ℚ))

/-- The `allSelected` guard of the `submitVoteBtn` handler:
`CRITERIA.every(c => ratings[c.key])`; the possible values 1..5 are all
truthy, so the check is presence of a rating for every criterion. -/
def allSelected (sel : Key → Option (Fin 5)) : Bool :=
  CRITERIA.all (fun c => (readRatings sel c.key).isSome)

/-- The vote write `db.ref(rooms/<code>/votes/<r>/<voter>).set(ratings)`:
a path-scoped overwrite creating intermediate nodes as needed. -/
def setVote (votes : List (ℕ × List (String × RatingMap))) (r : ℕ) (voter : String)
    (m : RatingMap) : List (ℕ × List (String × RatingMap)) :=
  assocSet r (assocSet voter m ((assocGet r votes).getD [])) votes

/-- The `submitVoteBtn` click handler: reject with an alert when some
criterion is unrated, otherwise write the rating map to
`votes[state.currentRound][state.voterId]`. -/
def submitVoteClick (sel : Key → Option (Fin 5)) (clientRound : ℕ) (voter : String)
    (room : Room) : Except String Room :=
  if allSelected sel then
    Except.ok { room with votes := setVote room.votes clientRound voter (readRatings sel) }
  else
    Except.error "Compila tutte le valutazioni"

/-- Spec-side structural completeness (3 Data Model): a rating map holding
a rating in [1,5] for every criterion. -/
def CompleteVote (m : RatingMap) : Prop :=
  ∀ c, c ∈ CRITERIA → ∃ q, m c.key = some q ∧ 1 ≤ q ∧ q ≤ 5

theorem lookupVote_setVote (votes : List (ℕ × List (String × RatingMap))) (cr : ℕ)
    (voter : String) (m : RatingMap) (r : ℕ) (v : String) :
    lookupVote (setVote votes cr voter m) r v =
      if r = cr then (if v = voter then some m else lookupVote votes r v)
      else lookupVote votes r v := by
  by_cases hr : r = cr
  · subst hr
    rw [lookupVote, setVote, assocGet_assocSet_self]
    by_cases hv : v = voter
    · subst hv
      simp [assocGet_assocSet_self]
    · rw [Option.some_bind, assocGet_assocSet_ne _ _ _ _ hv]
      rw [if_pos rfl, if_neg hv, lookupVote]
      cases hrv : assocGet r votes <;> simp [hrv, assocGet]
  · rw [lookupVote, setVote, assocGet_assocSet_ne _ _ _ _ hr]
    simp [hr, lookupVote]

theorem readRatings_complete (sel : Key → Option (Fin 5))
    (h : allSelected sel = true) : CompleteVote (readRatings sel) := by
  intro c hc
  have hall := List.all_eq_true.mp h c hc
  cases hsel : sel c.key with
  | none => rw [readRatings, hsel] at hall; simp at hall
  | some i =>
    refine ⟨((i.val + 1 : ℕ) : ℚ), by rw [readRatings, hsel]; rfl, ?_, ?_⟩
    · exact_mod_cast Nat.succ_le_succ (Nat.zero_le i.val)
    · exact_mod_cast Nat.succ_le_of_lt i.isLt

/-- C7: a submission missing any criterion is rejected synchronously with
an alert and performs no write; and a successful submission writes a
structurally complete rating map with values in [1,5], so if every stored
vote was complete before, every stored vote is complete after — partial
votes are never persisted. -/
theorem claimC7_submitValidation (sel : Key → Option (Fin 5)) (cr : ℕ) (voter : String)
    (room : Room)
    (hinv : ∀ r v m, lookupVote room.votes r v = some m → CompleteVote m) :
    (allSelected sel = false →
      submitVoteClick sel cr voter room = Except.error "Compila tutte le valutazioni")
    ∧ (∀ room2, submitVoteClick sel cr voter room = Except.ok room2 →
        (∀ r v m, lookupVote room2.votes r v = some m → CompleteVote m)
          ∧ lookupVote room2.votes cr voter = some (readRatings sel)) := by
  constructor
  · intro hfail
    simp [submitVoteClick, hfail]
  · intro room2 hok
    have hsel : allSelected sel = true := by
      by_contra hno
      rw [submitVoteClick, if_neg hno] at hok
      exact Except.noConfusion hok
    rw [submitVoteClick, if_pos hsel] at hok
    have hroom2 : room2 =
        { room with votes := setVote room.votes cr voter (readRatings sel) } :=
      (Except.ok.injEq _ _ ▸ hok).symm
    subst hroom2
    constructor
    · intro r v m hm
      rw [lookupVote_setVote] at hm
      by_cases hr : r = cr
      · by_cases hv : v = voter
        · simp only [hr, hv, if_true] at hm
          cases hm
          exact readRatings_complete sel hsel
        · simp only [hr, if_true, hv, if_false] at hm
          exact hinv cr v m hm
      · simp only [hr, if_false] at hm
        exact hinv r v m hm
    · rw [lookupVote_setVote]
      simp

/-- C7 witness: a fully-unrated form is rejected with the alert message and
no write. -/
theorem claimC7_witness :
    submitVoteClick (fun _ => none) 0 "v1" c3SampleRoom =
      Except.error "Compila tutte le valutazioni" :=
  (claimC7_submitValidation (fun _ => none) 0 "v1" c3SampleRoom
    (fun r v m hm => absurd hm (by simp [c3SampleRoom, lookupVote, assocGet]))).1 rfl

/-- A room-mutating operation a client can issue, with the client-captured
round (`state.currentRound`) made an explicit parameter where the source
reads it. -/
inductive Op where
  | selectTeam (clientRound idx : ℕ)
  | startTimer (now : ℕ)
  | stopTimer
  | advanceRound
  | retreatRound
  | submitVote (sel : Key → Option (Fin 5)) (clientRound : ℕ) (voter : String)

/-- Effect of each operation on the stored room, as written by the
corresponding `app.js` handler (transaction bodies for team/round changes,
field writes for the timer, the validated path write for votes). -/
def applyOp (op : Op) (room : Room) : Room :=
  match op with
  | .selectTeam cr idx =>
      { room with currentTeam := some idx, roundTeams := assocSet cr idx room.roundTeams }
  | .startTimer now => { room with timerEnd := now + 180000 }
  | .stopTimer => { room with timerEnd := 0 }
  | .advanceRound =>
      { room with currentRound := room.currentRound + 1, currentTeam := none, timerEnd := 0 }
  | .retreatRound =>
      { room with currentRound := room.currentRound - 1, currentTeam := none, timerEnd := 0 }
  | .submitVote sel cr voter =>
      match submitVoteClick sel cr voter room with
      | .ok r2 => r2
      | .error _ => room

theorem applyOp_submitVote_roundTeams (sel : Key → Option (Fin 5)) (cr : ℕ)
    (voter : String) (room : Room) :
    (applyOp (Op.submitVote sel cr voter) room).roundTeams = room.roundTeams := by
  rw [applyOp, submitVoteClick]
  by_cases h : allSelected sel = true <;> simp [h]

theorem applyOp_roundTeams_preserved (op : Op) (room : Room) (r t : ℕ)
    (hset : assocGet r room.roundTeams = some t)
    (hne : ∀ idx, op ≠ Op.selectTeam r idx) :
    assocGet r (applyOp op room).roundTeams = some t := by
  cases op with
  | selectTeam cr idx =>
    have hcr : r ≠ cr := by
      intro h
      exact hne idx (by rw [h])
    rw [applyOp, assocGet_assocSet_ne _ _ _ _ hcr]
    exact hset
  | startTimer now => exact hset
  | stopTimer => exact hset
  | advanceRound => exact hset
  | retreatRound => exact hset
  | submitVote sel cr voter => rw [applyOp_submitVote_roundTeams]; exact hset

theorem applyOp_roundTeams_isSome (op : Op) (room : Room) (r t : ℕ)
    (hset : assocGet r room.roundTeams = some t) :
    ∃ t2, assocGet r (applyOp op room).roundTeams = some t2 := by
  cases op with
  | selectTeam cr idx =>
    by_cases hcr : r = cr
    · subst hcr
      exact ⟨idx, by rw [applyOp]; exact assocGet_assocSet_self r idx _⟩
    · exact ⟨t, by rw [applyOp, assocGet_assocSet_ne _ _ _ _ hcr]; exact hset⟩
  | startTimer now => exact ⟨t, hset⟩
  | stopTimer => exact ⟨t, hset⟩
  | advanceRound => exact ⟨t, hset⟩
  | retreatRound => exact ⟨t, hset⟩
  | submitVote sel cr voter =>
    exact ⟨t, by rw [applyOp_submitVote_roundTeams]; exact hset⟩

theorem applyOps_roundTeams_preserved (ops : List Op) (room : Room) (r t : ℕ)
    (hset : assocGet r room.roundTeams = some t)
    (havoid : ∀ cr idx, Op.selectTeam cr idx ∈ ops → cr ≠ r) :
    assocGet r (ops.foldl (fun rm o => applyOp o rm) room).roundTeams = some t := by
  induction ops generalizing room with
  | nil => exact hset
  | cons op rest ih =>
    have hstep : assocGet r (applyOp op room).roundTeams = some t := by
      refine applyOp_roundTeams_preserved op room r t hset (fun idx h => ?_)
      subst h
      exact absurd rfl (havoid r idx (List.mem_cons_self _ _))
    exact ih (applyOp op room) hstep
      (fun cr idx hmem => havoid cr idx (List.mem_cons_of_mem _ hmem))

theorem applyOps_roundTeams_isSome (ops : List Op) (room : Room) (r t : ℕ)
    (hset : assocGet r room.roundTeams = some t) :
    ∃ t2, assocGet r (ops.foldl (fun rm o => applyOp o rm) room).roundTeams = some t2 := by
  induction ops generalizing room t with
  | nil => exact ⟨t, hset⟩
  | cons op rest ih =>
    obtain ⟨t2, h2⟩ := applyOp_roundTeams_isSome op room r t hset
    exact ih (applyOp op room) t2 h2

/-- Concrete room whose live round has advanced past round 0
(`currentRound = 1`) with round 0's team recorded as team 0. -/
def c5StaleRoom : Room :=
  { teams := ["Alpha", "Beta"],
    currentRound := 1,
    currentTeam := none,
    timerEnd := 0,
    roundTeams := [(0, 0)],
    votes := [] }

/-- C5 counterexample: with `roundTeams[0] = 0` and the room already at
round 1 (round 0 no longer current), a SelectTeam whose client-captured
round is the stale value 0 (`room.roundTeams[state.currentRound] = index`
at app.js:99 uses the cached round) overwrites `roundTeams[0]` with a
different team — so a later snapshot of the advanced-past round shows
team 1, not team 0. -/
theorem claimC5_counterexample :
    c5StaleRoom.currentRound = 1 ∧
    assocGet 0 c5StaleRoom.roundTeams = some 0 ∧
    assocGet 0 (applyOp (Op.selectTeam 0 1) c5StaleRoom).roundTeams = some 1 ∧
    some (1 : ℕ) ≠ some (0 : ℕ) :=
  ⟨rfl, rfl, rfl, by decide⟩

/-- C5 (amended): once `roundTeams[r] = t`, the only operation that can
overwrite it is a SelectTeam whose captured round is `r` itself — whether
or not `r` is still the room's current round — and then the stored team
becomes the newly selected one; any sequence of operations none of whose
SelectTeams targets `r` preserves `t`; and no operation sequence can make
`roundTeams[r]` absent again. -/
theorem claimC5_roundTeamsPersistence (room : Room) (op : Op) (ops : List Op) (r t : ℕ)
    (hset : assocGet r room.roundTeams = some t) :
    (assocGet r (applyOp op room).roundTeams = some t ∨
      (∃ idx, op = Op.selectTeam r idx ∧
        assocGet r (applyOp op room).roundTeams = some idx))
    ∧ ((∀ cr idx, Op.selectTeam cr idx ∈ ops → cr ≠ r) →
        assocGet r (ops.foldl (fun rm o => applyOp o rm) room).roundTeams = some t)
    ∧ (∃ t2, assocGet r (ops.foldl (fun rm o => applyOp o rm) room).roundTeams = some t2) := by
  refine ⟨?_, applyOps_roundTeams_preserved ops room r t hset,
    applyOps_roundTeams_isSome ops room r t hset⟩
  cases op with
  | selectTeam cr idx =>
    by_cases hcr : cr = r
    · subst hcr
      refine Or.inr ⟨idx, rfl, ?_⟩
      rw [applyOp]
      exact assocGet_assocSet_self cr idx _
    · refine Or.inl ?_
      have hrc : r ≠ cr := fun h => hcr h.symm
      rw [applyOp, assocGet_assocSet_ne _ _ _ _ hrc]
      exact hset
  | startTimer now => exact Or.inl hset
  | stopTimer => exact Or.inl hset
  | advanceRound => exact Or.inl hset
  | retreatRound => exact Or.inl hset
  | submitVote sel cr voter =>
    exact Or.inl (by rw [applyOp_submitVote_roundTeams]; exact hset)

/-- Concrete room used to instantiate the round-history theorem. -/
def c5SampleRoom : Room :=
  { teams := ["Alpha", "Beta"],
    currentRound := 0,
    currentTeam := some 0,
    timerEnd := 0,
    roundTeams := [(0, 0)],
    votes := [] }

/-- C5 witness: advancing the round keeps `roundTeams[0] = 0`. -/
theorem claimC5_persistence_witness :
    assocGet 0 (([Op.advanceRound].foldl (fun rm o => applyOp o rm) c5SampleRoom)).roundTeams
      = some 0 :=
  ((claimC5_roundTeamsPersistence c5SampleRoom Op.advanceRound [Op.advanceRound] 0 0 rfl).2.1)
    (fun cr idx h => by simp at h)

/-- The 31-character code alphabet of `generateRoomCode` in `app.js`. -/
def roomCodeChars : List Char := "ABCDEFGHJKMNPQRSTUVWXYZ23456789".toList

/-- The `generateRoomCode` loop: six characters picked by
`Math.floor(Math.random() * chars.length)`, modelled by an arbitrary
in-range index stream. -/
def generateRoomCode (rnd : ℕ → Fin roomCodeChars.length) : List Char :=
  (List.range 6).map (fun i => roomCodeChars.get (rnd i))

/-- C8 counterexample: the alphabet of `generateRoomCode` has 31 symbols,
not the claimed 32. -/
theorem claimC8_counterexample :
    roomCodeChars.length = 31 ∧ roomCodeChars.length ≠ 32 := by
  exact ⟨rfl, by decide⟩

/-- C8 (amended): every generated code has 6 characters, each drawn from
the fixed 31-symbol alphabet, which contains none of 0, O, 1, I, L. -/
theorem claimC8_roomCode (rnd : ℕ → Fin roomCodeChars.length) :
    (generateRoomCode rnd).length = 6
    ∧ (∀ c, c ∈ generateRoomCode rnd → c ∈ roomCodeChars)
    ∧ roomCodeChars.length = 31
    ∧ ('0' ∉ roomCodeChars ∧ 'O' ∉ roomCodeChars ∧ '1' ∉ roomCodeChars ∧
        'I' ∉ roomCodeChars ∧ 'L' ∉ roomCodeChars) := by
  refine ⟨by simp [generateRoomCode], ?_, rfl, by decide⟩
  intro c hc
  rw [generateRoomCode] at hc
  obtain ⟨i, _, hgi⟩ := List.mem_map.mp hc
  rw [← hgi]
  exact List.get_mem _ _ _

/-- C8 witness: a concrete index stream yields a 6-character in-alphabet
code. -/
theorem claimC8_witness : 'A' ∈ roomCodeChars :=
  (claimC8_roomCode (fun _ => ⟨0, by decide⟩)).2.1 'A' (by decide)
